import Mathlib

/-!
# Avahi poll adapter (`src/zeroconf/avahi/Poll.cxx`)

A shallow embedding of the adapter that lets the Avahi client library ride on
the host event loop: the two flag translators, the `AvahiWatch` and
`AvahiTimeout` objects, and the seven entry points of the `AvahiPoll`
dispatch table.

Conventions of the embedding

* Bit masks (`unsigned`, `AvahiWatchEvent`) are natural numbers; the code only
  combines them with `&` and `|`, which cannot overflow.
* Pointers to `AvahiWatch` / `AvahiTimeout` are handles (natural numbers) into
  an explicit heap; a handle whose slot is empty is dangling.
* Constants and helpers that `Poll.cxx` takes from headers outside the
  translation unit are fields of `Env`.
* A foreign callback is the tree of dispatch-table calls it makes (`Prog`).
-/

namespace AvahiPoll

/-! ## Declarations imported by `Poll.cxx` -/

/-- A pointer to an `AvahiWatch` or an `AvahiTimeout`. -/
abbrev Handle := Nat

/-- The opaque `void *userdata` token of the foreign library. -/
abbrev Userdata := Nat

/-- The C `struct timeval`. -/
structure Timeval where
  tv_sec : Int
  tv_usec : Int
deriving DecidableEq

/-- A `std::chrono::steady_clock::duration`, as a tick count. -/
abbrev Duration := Int

/-- What `Poll.cxx` uses from headers that are not part of the translation
unit: the `SocketEvent` flag constants (`event/SocketEvent.hxx`), the
`AvahiWatchEvent` enumerators (`avahi-common/watch.h`) and the conversion
`ToSteadyClockDuration` (`time/Convert.hxx`). -/
structure Env where
  READ : Nat
  WRITE : Nat
  ERROR : Nat
  HANGUP : Nat
  AVAHI_WATCH_IN : Nat
  AVAHI_WATCH_OUT : Nat
  AVAHI_WATCH_ERR : Nat
  AVAHI_WATCH_HUP : Nat
  ToSteadyClockDuration : Timeval → Duration

/-- The flag constants are usable as flags: the readable and writable host
flags are non-empty, the host error and hangup flags share no bit with them,
and the four foreign flags are non-empty and pairwise share no bit. -/
def Env.WellFormed (E : Env) : Prop :=
  E.READ ≠ 0 ∧ E.WRITE ≠ 0 ∧
  E.READ &&& E.WRITE = 0 ∧
  E.READ &&& E.ERROR = 0 ∧ E.READ &&& E.HANGUP = 0 ∧
  E.WRITE &&& E.ERROR = 0 ∧ E.WRITE &&& E.HANGUP = 0 ∧
  E.AVAHI_WATCH_IN ≠ 0 ∧ E.AVAHI_WATCH_OUT ≠ 0 ∧
  E.AVAHI_WATCH_ERR ≠ 0 ∧ E.AVAHI_WATCH_HUP ≠ 0 ∧
  E.AVAHI_WATCH_IN &&& E.AVAHI_WATCH_OUT = 0 ∧
  E.AVAHI_WATCH_IN &&& E.AVAHI_WATCH_ERR = 0 ∧
  E.AVAHI_WATCH_IN &&& E.AVAHI_WATCH_HUP = 0 ∧
  E.AVAHI_WATCH_OUT &&& E.AVAHI_WATCH_ERR = 0 ∧
  E.AVAHI_WATCH_OUT &&& E.AVAHI_WATCH_HUP = 0 ∧
  E.AVAHI_WATCH_ERR &&& E.AVAHI_WATCH_HUP = 0

instance (E : Env) : Decidable E.WellFormed := by
  unfold Env.WellFormed; exact inferInstance

/-- The values on Linux: `EPOLLIN`, `EPOLLOUT`, `EPOLLERR`, `EPOLLHUP` for the
host and `POLLIN`, `POLLOUT`, `POLLERR`, `POLLHUP` for Avahi; durations count
microseconds. -/
def Env.linux : Env where
  READ := 1
  WRITE := 4
  ERROR := 8
  HANGUP := 16
  AVAHI_WATCH_IN := 1
  AVAHI_WATCH_OUT := 4
  AVAHI_WATCH_ERR := 8
  AVAHI_WATCH_HUP := 16
  ToSteadyClockDuration := fun tv => tv.tv_sec * 1000000 + tv.tv_usec

/-! ## Flag translator (`Poll.cxx` lines 25-39) -/

/-- The function `FromAvahiWatchEvent` (lines 25-30): foreign interest mask to host mask. -/
def FromAvahiWatchEvent (E : Env) (e : Nat) : Nat :=
  (if e &&& E.AVAHI_WATCH_IN ≠ 0 then E.READ else 0) |||
  (if e &&& E.AVAHI_WATCH_OUT ≠ 0 then E.WRITE else 0)

/-- The function `ToAvahiWatchEvent` (lines 32-39): host readiness flags to foreign mask. -/
def ToAvahiWatchEvent (E : Env) (e : Nat) : Nat :=
  (if e &&& E.READ ≠ 0 then E.AVAHI_WATCH_IN else 0) |||
  (if e &&& E.WRITE ≠ 0 then E.AVAHI_WATCH_OUT else 0) |||
  (if e &&& E.ERROR ≠ 0 then E.AVAHI_WATCH_ERR else 0) |||
  (if e &&& E.HANGUP ≠ 0 then E.AVAHI_WATCH_HUP else 0)

/-! ## Foreign code -/

/-- What a piece of foreign code (a watch or timeout callback) does to the
adapter: the calls it makes through the seven entry points of the dispatch
table installed by `MyAvahiPoll::MyAvahiPoll`, each continuation receiving the
value the entry point returned. A callback passed to `watch_new` takes the
arguments of an `AvahiWatchCallback` (watch, descriptor, events, userdata),
one passed to `timeout_new` those of an `AvahiTimeoutCallback`. -/
inductive Prog where
  | ret : Prog
  | watch_new (fd : Int) (event : Nat)
      (callback : Handle → Int → Nat → Userdata → Prog) (userdata : Userdata)
      (k : Handle → Prog) : Prog
  | watch_update (w : Handle) (event : Nat) (k : Prog) : Prog
  | watch_get_events (w : Handle) (k : Nat → Prog) : Prog
  | watch_free (w : Handle) (k : Prog) : Prog
  | timeout_new (tv : Option Timeval)
      (callback : Handle → Userdata → Prog) (userdata : Userdata)
      (k : Handle → Prog) : Prog
  | timeout_update (t : Handle) (tv : Option Timeval) (k : Prog) : Prog
  | timeout_free (t : Handle) (k : Prog) : Prog

/-- Sequencing of foreign code: `p.bind q` makes the calls of `p` and then
those of `q`. -/
def Prog.bind : Prog → Prog → Prog
  | .ret, q => q
  | .watch_new fd event callback userdata k, q =>
    .watch_new fd event callback userdata (fun h => (k h).bind q)
  | .watch_update w event k, q => .watch_update w event (k.bind q)
  | .watch_get_events w k, q => .watch_get_events w (fun v => (k v).bind q)
  | .watch_free w k, q => .watch_free w (k.bind q)
  | .timeout_new tv callback userdata k, q =>
    .timeout_new tv callback userdata (fun h => (k h).bind q)
  | .timeout_update t tv k, q => .timeout_update t tv (k.bind q)
  | .timeout_free t k, q => .timeout_free t (k.bind q)

/-- The function pointer type `AvahiWatchCallback`. -/
abbrev AvahiWatchCallback := Handle → Int → Nat → Userdata → Prog

/-- The function pointer type `AvahiTimeoutCallback`. -/
abbrev AvahiTimeoutCallback := Handle → Userdata → Prog

/-! ## Host-side registrations -/

/-- Modelled from the spec: the host class `SocketEvent`
(`event/SocketEvent.hxx`), capability `register-for-socket-readiness`. A
registration is represented by the descriptor it was constructed with and by
the mask most recently handed to `Schedule`. -/
structure SocketEvent where
  fd : Int
  scheduled_flags : Nat
deriving DecidableEq

/-- Modelled from the spec: `SocketEvent::Schedule` of the host, which
registers interest in `flags` in place of the previous mask. -/
def SocketEvent.Schedule (ev : SocketEvent) (flags : Nat) : SocketEvent :=
  { ev with scheduled_flags := flags }

/-- Modelled from the spec: `SocketEvent::GetSocket().Get()` of the host, the
descriptor of the registration. -/
def SocketEvent.GetSocket (ev : SocketEvent) : Int := ev.fd

/-- Modelled from the spec: the host class `CoarseTimerEvent`
(`event/CoarseTimerEvent.hxx`), capability `schedule-timer`. A timer is idle
(`none`) or armed with the duration most recently handed to `Schedule`. -/
structure CoarseTimerEvent where
  due : Option Duration
deriving DecidableEq

/-- Modelled from the spec: `CoarseTimerEvent::Schedule` of the host. -/
def CoarseTimerEvent.Schedule (_t : CoarseTimerEvent) (d : Duration) : CoarseTimerEvent :=
  { due := some d }

/-- Modelled from the spec: `CoarseTimerEvent::Cancel` of the host. -/
def CoarseTimerEvent.Cancel (_t : CoarseTimerEvent) : CoarseTimerEvent :=
  { due := none }

/-! ## Adapter objects and machine state -/

/-- The fields of `struct AvahiWatch` (lines 41-47). -/
structure AvahiWatch where
  event : SocketEvent
  callback : AvahiWatchCallback
  userdata : Userdata
  received : Nat

/-- The fields of `struct AvahiTimeout` (lines 80-84). -/
structure AvahiTimeout where
  timer : CoarseTimerEvent
  callback : AvahiTimeoutCallback
  userdata : Userdata

/-- One invocation of a foreign callback by the adapter, with the arguments
passed. -/
inductive Call where
  | watch (w : Handle) (fd : Int) (event : Nat) (userdata : Userdata) : Call
  | timeout (t : Handle) (userdata : Userdata) : Call
deriving DecidableEq

/-- One call of foreign code into the dispatch table, with its arguments and,
for the entry points that return one, the value returned. The value of
`watch_get_events` is `none` when the handle was dangling. -/
inductive Request where
  | watch_new (fd : Int) (event : Nat) (userdata : Userdata) (result : Handle) : Request
  | watch_update (w : Handle) (event : Nat) : Request
  | watch_get_events (w : Handle) (result : Option Nat) : Request
  | watch_free (w : Handle) : Request
  | timeout_new (tv : Option Timeval) (userdata : Userdata) (result : Handle) : Request
  | timeout_update (t : Handle) (tv : Option Timeval) : Request
  | timeout_free (t : Handle) : Request
deriving DecidableEq

/-- The machine state: the heap of live watches and timeouts (an empty slot is
a handle that was never allocated or has been deleted), the next address
`new` hands out, and three observers that the code itself does not read: the
callbacks invoked so far, the dispatch-table calls made so far, and the first
dangling handle that was dereferenced, if any. -/
structure Poll where
  watches : Handle → Option AvahiWatch
  timeouts : Handle → Option AvahiTimeout
  next : Handle
  calls : List Call
  requests : List Request
  fault : Option Handle

/-- Nothing is allocated at or above the next address of `new`. -/
def Poll.WF (s : Poll) : Prop :=
  ∀ h, s.next ≤ h → s.watches h = none ∧ s.timeouts h = none

/-- Record that the dangling handle `h` was dereferenced (the first such
access is kept). -/
def Poll.raise (s : Poll) (h : Handle) : Poll :=
  match s.fault with
  | some _ => s
  | none => { s with fault := some h }

/-- Record a callback invocation. -/
def Poll.call (s : Poll) (c : Call) : Poll :=
  { s with calls := s.calls ++ [c] }

/-- Record a dispatch-table call. -/
def Poll.request (s : Poll) (r : Request) : Poll :=
  { s with requests := s.requests ++ [r] }

/-- The empty machine: no handle allocated, nothing observed. -/
def Poll.empty : Poll where
  watches := fun _ => none
  timeouts := fun _ => none
  next := 0
  calls := []
  requests := []
  fault := none

/-! ## `struct AvahiWatch` (lines 41-78) -/

/-- The constructor `AvahiWatch::AvahiWatch` (lines 50-57): the registration
is built on `_fd`, `received` starts empty, and the translated interest mask
is scheduled. -/
def AvahiWatch.ctor (E : Env) (_fd : Int) (_event : Nat)
    (_callback : AvahiWatchCallback) (_userdata : Userdata) : AvahiWatch :=
  let event : SocketEvent := { fd := _fd, scheduled_flags := 0 }
  { event := event.Schedule (FromAvahiWatchEvent E _event)
    callback := _callback
    userdata := _userdata
    received := 0 }

/-- The method `AvahiWatch::WatchUpdate` (lines 59-62). -/
def AvahiWatch.WatchUpdate (E : Env) (s : Poll) (w : Handle) (event : Nat) : Poll :=
  match s.watches w with
  | none => s.raise w
  | some x =>
    let x1 : AvahiWatch := { x with event := x.event.Schedule (FromAvahiWatchEvent E event) }
    { s with watches := Function.update s.watches w (some x1) }

/-- The method `AvahiWatch::WatchGetEvents` (lines 64-66); `none` when `w` dangles. -/
def AvahiWatch.WatchGetEvents (s : Poll) (w : Handle) : Option Nat :=
  match s.watches w with
  | none => none
  | some x => some x.received

/-- The method `AvahiWatch::WatchFree` (lines 68-70): `delete w`, which also destroys the
host registration. -/
def AvahiWatch.WatchFree (s : Poll) (w : Handle) : Poll :=
  match s.watches w with
  | none => s.raise w
  | some _ => { s with watches := Function.update s.watches w none }

/-- An assignment `received = v` made through the pointer `this`. -/
def AvahiWatch.setReceived (s : Poll) (this : Handle) (v : Nat) : Poll :=
  match s.watches this with
  | none => s.raise this
  | some x =>
    { s with watches := Function.update s.watches this (some { x with received := v }) }

/-! ## `struct AvahiTimeout` (lines 80-112) -/

/-- The constructor `AvahiTimeout::AvahiTimeout` (lines 87-94): the timer
starts idle and is scheduled only when `tv` is not null. -/
def AvahiTimeout.ctor (E : Env) (tv : Option Timeval)
    (_callback : AvahiTimeoutCallback) (_userdata : Userdata) : AvahiTimeout :=
  let timer : CoarseTimerEvent := { due := none }
  { timer := match tv with
      | some v => timer.Schedule (E.ToSteadyClockDuration v)
      | none => timer
    callback := _callback
    userdata := _userdata }

/-- The method `AvahiTimeout::TimeoutUpdate` (lines 96-102). -/
def AvahiTimeout.TimeoutUpdate (E : Env) (s : Poll) (t : Handle) (tv : Option Timeval) : Poll :=
  match s.timeouts t with
  | none => s.raise t
  | some x =>
    let timer : CoarseTimerEvent :=
      match tv with
      | some v => x.timer.Schedule (E.ToSteadyClockDuration v)
      | none => x.timer.Cancel
    { s with timeouts := Function.update s.timeouts t (some { x with timer := timer }) }

/-- The method `AvahiTimeout::TimeoutFree` (lines 104-106): `delete t`, which also
destroys the host timer. -/
def AvahiTimeout.TimeoutFree (s : Poll) (t : Handle) : Poll :=
  match s.timeouts t with
  | none => s.raise t
  | some _ => { s with timeouts := Function.update s.timeouts t none }

/-! ## `MyAvahiPoll` (lines 114-144) -/

/-- The method `MyAvahiPoll::WatchNew` (lines 126-134): `new AvahiWatch(...)`
at the next free address. The loop reference `poll.event_loop` is not
represented: a registration lives in the object that owns it. -/
def MyAvahiPoll.WatchNew (E : Env) (s : Poll) (fd : Int) (event : Nat)
    (callback : AvahiWatchCallback) (userdata : Userdata) : Handle × Poll :=
  let w : AvahiWatch := AvahiWatch.ctor E fd event callback userdata
  (s.next, { s with watches := Function.update s.watches s.next (some w), next := s.next + 1 })

/-- The method `MyAvahiPoll::TimeoutNew` (lines 136-144):
`new AvahiTimeout(...)` at the next free address. -/
def MyAvahiPoll.TimeoutNew (E : Env) (s : Poll) (tv : Option Timeval)
    (callback : AvahiTimeoutCallback) (userdata : Userdata) : Handle × Poll :=
  let t : AvahiTimeout := AvahiTimeout.ctor E tv callback userdata
  (s.next, { s with timeouts := Function.update s.timeouts s.next (some t), next := s.next + 1 })

/-- Run foreign code: every node calls the entry point that
`MyAvahiPoll::MyAvahiPoll` (lines 114-124) stored in the dispatch table under
that name, and is recorded in `requests`. -/
def Prog.run (E : Env) : Prog → Poll → Poll
  | .ret, s => s
  | .watch_new fd event callback userdata k, s =>
    let r := MyAvahiPoll.WatchNew E s fd event callback userdata
    (k r.1).run E (r.2.request (.watch_new fd event userdata r.1))
  | .watch_update w event k, s =>
    k.run E ((AvahiWatch.WatchUpdate E s w event).request (.watch_update w event))
  | .watch_get_events w k, s =>
    match AvahiWatch.WatchGetEvents s w with
    | some v => (k v).run E (s.request (.watch_get_events w (some v)))
    | none => (k 0).run E ((s.raise w).request (.watch_get_events w none))
  | .watch_free w k, s =>
    k.run E ((AvahiWatch.WatchFree s w).request (.watch_free w))
  | .timeout_new tv callback userdata k, s =>
    let r := MyAvahiPoll.TimeoutNew E s tv callback userdata
    (k r.1).run E (r.2.request (.timeout_new tv userdata r.1))
  | .timeout_update t tv k, s =>
    k.run E ((AvahiTimeout.TimeoutUpdate E s t tv).request (.timeout_update t tv))
  | .timeout_free t k, s =>
    k.run E ((AvahiTimeout.TimeoutFree s t).request (.timeout_free t))

/-! ## Notifications from the host loop -/

/-- Line 75 of `AvahiWatch::OnSocketReady`: the call
`callback(this, event.GetSocket().Get(), received, userdata)`. -/
def AvahiWatch.invokeCallback (E : Env) (s : Poll) (this : Handle) : Poll :=
  match s.watches this with
  | none => s.raise this
  | some x =>
    (x.callback this x.event.GetSocket x.received x.userdata).run E
      (s.call (.watch this x.event.GetSocket x.received x.userdata))

/-- The method `AvahiWatch::OnSocketReady` (lines 73-77). -/
def AvahiWatch.OnSocketReady (E : Env) (s : Poll) (this : Handle) (flags : Nat) : Poll :=
  let s1 := AvahiWatch.setReceived s this (ToAvahiWatchEvent E flags)
  let s2 := AvahiWatch.invokeCallback E s1 this
  AvahiWatch.setReceived s2 this 0

/-- The method `AvahiTimeout::OnTimeout` (lines 109-111). -/
def AvahiTimeout.OnTimeout (E : Env) (s : Poll) (this : Handle) : Poll :=
  match s.timeouts this with
  | none => s.raise this
  | some x => (x.callback this x.userdata).run E (s.call (.timeout this x.userdata))

/-- Modelled from the spec: the expiry of a host timer (`CoarseTimerEvent` in
the host loop, section 4.3: "On firing: transition to idle first, then invoke
the foreign callback"). Only a live, armed timer fires; the host takes it off
its schedule and then runs the bound method `OnTimeout`. -/
def CoarseTimerEvent.Expire (E : Env) (s : Poll) (t : Handle) : Poll :=
  match s.timeouts t with
  | none => s
  | some x =>
    match x.timer.due with
    | none => s
    | some _ =>
      let idle : AvahiTimeout := { x with timer := x.timer.Cancel }
      AvahiTimeout.OnTimeout E { s with timeouts := Function.update s.timeouts t (some idle) } t

/-! ## The host loop -/

/-- Every live watch has an empty `received` mask: the state of the machine at
a point where no watch callback is running. -/
def Poll.Quiet (s : Poll) : Prop :=
  ∀ (h : Handle) (y : AvahiWatch), s.watches h = some y → y.received = 0

/-- What the machine does between two returns to the host loop: foreign code
that runs outside any callback and makes the calls of a program, a socket
readiness notification with the host flags, or the expiry of a host timer. -/
inductive HostEvent where
  | foreign (p : Prog) : HostEvent
  | socket_ready (w : Handle) (flags : Nat) : HostEvent
  | timer_expired (t : Handle) : HostEvent

/-- Modelled from the spec: the dispatch of the host loop (section 5,
"a freed handle is unregistered such that even an event already queued by the
host cannot result in a later delivery to it"). Readiness is delivered, by
`OnSocketReady`, only to a watch that is still registered; a timer expiry goes
through `CoarseTimerEvent.Expire`. -/
def Poll.handle (E : Env) (s : Poll) : HostEvent → Poll
  | .foreign p => p.run E s
  | .socket_ready w flags =>
    match s.watches w with
    | none => s
    | some _ => AvahiWatch.OnSocketReady E s w flags
  | .timer_expired t => CoarseTimerEvent.Expire E s t

/-- The machine after a history of host events, started empty. -/
def Poll.reach (E : Env) (evs : List HostEvent) : Poll :=
  evs.foldl (Poll.handle E) Poll.empty

/-! ## Single dispatch-table calls -/

/-- The relation `Step E s r s'`: foreign code makes the dispatch-table call recorded as `r`
in state `s`, and the entry point leaves state `s'` (before the call is added
to `requests`). These are exactly the transitions `Prog.run` takes. -/
inductive Step (E : Env) : Poll → Request → Poll → Prop where
  | watch_new (s : Poll) (fd : Int) (event : Nat) (callback : AvahiWatchCallback)
      (userdata : Userdata) :
      Step E s (.watch_new fd event userdata s.next)
        (MyAvahiPoll.WatchNew E s fd event callback userdata).2
  | watch_update (s : Poll) (w : Handle) (event : Nat) :
      Step E s (.watch_update w event) (AvahiWatch.WatchUpdate E s w event)
  | watch_get_events (s : Poll) (w : Handle) (v : Nat) :
      AvahiWatch.WatchGetEvents s w = some v →
      Step E s (.watch_get_events w (some v)) s
  | watch_get_events_dangling (s : Poll) (w : Handle) :
      AvahiWatch.WatchGetEvents s w = none →
      Step E s (.watch_get_events w none) (s.raise w)
  | watch_free (s : Poll) (w : Handle) :
      Step E s (.watch_free w) (AvahiWatch.WatchFree s w)
  | timeout_new (s : Poll) (tv : Option Timeval) (callback : AvahiTimeoutCallback)
      (userdata : Userdata) :
      Step E s (.timeout_new tv userdata s.next)
        (MyAvahiPoll.TimeoutNew E s tv callback userdata).2
  | timeout_update (s : Poll) (t : Handle) (tv : Option Timeval) :
      Step E s (.timeout_update t tv) (AvahiTimeout.TimeoutUpdate E s t tv)
  | timeout_free (s : Poll) (t : Handle) :
      Step E s (.timeout_free t) (AvahiTimeout.TimeoutFree s t)

/-! ## A concrete machine -/

/-- A callback that frees its own watch and returns. -/
def freeSelf : AvahiWatchCallback := fun w _ _ _ => .watch_free w .ret

/-- A callback that asks for write interest on its own watch, then reads the
delivered events, and returns. -/
def wantWrite : AvahiWatchCallback :=
  fun w _ _ _ => .watch_update w 4 (.watch_get_events w (fun _ => .ret))

/-- A timeout callback that does nothing. -/
def idleCallback : AvahiTimeoutCallback := fun _ _ => .ret

/-- A machine with three objects, created in this order on the empty machine
under `Env.linux`: watch 0 on descriptor 5 with read interest, callback
`freeSelf` and userdata 7; watch 1 on descriptor 6 with read interest,
callback `wantWrite` and userdata 8; timeout 2 with deadline 0.5 s, callback
`idleCallback` and userdata 9. -/
def Poll.sample : Poll :=
  let s0 := (MyAvahiPoll.WatchNew Env.linux Poll.empty 5 1 freeSelf 7).2
  let s1 := (MyAvahiPoll.WatchNew Env.linux s0 6 1 wantWrite 8).2
  (MyAvahiPoll.TimeoutNew Env.linux s1 (some { tv_sec := 0, tv_usec := 500000 }) idleCallback 9).2

/-! ## Lemmas: bit masks -/

theorem lor_land (a b c : Nat) : (a ||| b) &&& c = (a &&& c) ||| (b &&& c) := by
  rw [Nat.and_comm, Nat.and_or_distrib_left, Nat.and_comm c a, Nat.and_comm c b]

theorem land_comm_zero {a b : Nat} (h : a &&& b = 0) : b &&& a = 0 := by
  rw [Nat.and_comm]; exact h

/-! ## Lemmas: observers and single calls -/

@[simp] theorem raise_calls (s : Poll) (h : Handle) : (s.raise h).calls = s.calls := by
  unfold Poll.raise; split <;> rfl

@[simp] theorem raise_watches (s : Poll) (h : Handle) : (s.raise h).watches = s.watches := by
  unfold Poll.raise; split <;> rfl

@[simp] theorem raise_timeouts (s : Poll) (h : Handle) : (s.raise h).timeouts = s.timeouts := by
  unfold Poll.raise; split <;> rfl

@[simp] theorem raise_next (s : Poll) (h : Handle) : (s.raise h).next = s.next := by
  unfold Poll.raise; split <;> rfl

@[simp] theorem raise_requests (s : Poll) (h : Handle) : (s.raise h).requests = s.requests := by
  unfold Poll.raise; split <;> rfl

/-- No entry point touches `requests`. -/
theorem Step.requests_eq {E : Env} {s s' : Poll} {r : Request} (h : Step E s r s') :
    s'.requests = s.requests := by
  cases h <;>
    simp [MyAvahiPoll.WatchNew, MyAvahiPoll.TimeoutNew, AvahiWatch.WatchUpdate,
      AvahiWatch.WatchFree, AvahiTimeout.TimeoutUpdate, AvahiTimeout.TimeoutFree] <;>
    split <;> simp

/-- No entry point touches `calls`. -/
theorem Step.calls_eq {E : Env} {s s' : Poll} {r : Request} (h : Step E s r s') :
    s'.calls = s.calls := by
  cases h <;>
    simp [MyAvahiPoll.WatchNew, MyAvahiPoll.TimeoutNew, AvahiWatch.WatchUpdate,
      AvahiWatch.WatchFree, AvahiTimeout.TimeoutUpdate, AvahiTimeout.TimeoutFree] <;>
    split <;> simp

/-- Induction along a run: a property of the pair (start state, end state)
that holds when the program stops and is carried backwards over one step holds
for every run. -/
theorem run_induction (E : Env) (M : Poll → Poll → Prop)
    (hret : ∀ s, M s s)
    (hstep : ∀ s r s' t, Step E s r s' → M (s'.request r) t → M s t)
    (p : Prog) (s : Poll) : M s (p.run E s) := by
  induction p generalizing s with
  | ret => exact hret s
  | watch_new fd ev cb ud k _ ih =>
    exact hstep _ _ _ _ (Step.watch_new s fd ev cb ud) (ih _ _)
  | watch_update w ev k ih =>
    exact hstep _ _ _ _ (Step.watch_update s w ev) (ih _)
  | watch_get_events w k ih =>
    simp only [Prog.run]
    split
    · next v hv => exact hstep _ _ _ _ (Step.watch_get_events s w v hv) (ih _ _)
    · next hv => exact hstep _ _ _ _ (Step.watch_get_events_dangling s w hv) (ih _ _)
  | watch_free w k ih =>
    exact hstep _ _ _ _ (Step.watch_free s w) (ih _)
  | timeout_new tv cb ud k _ ih =>
    exact hstep _ _ _ _ (Step.timeout_new s tv cb ud) (ih _ _)
  | timeout_update t tv k ih =>
    exact hstep _ _ _ _ (Step.timeout_update s t tv) (ih _)
  | timeout_free t k ih =>
    exact hstep _ _ _ _ (Step.timeout_free s t) (ih _)

theorem run_calls (E : Env) (p : Prog) (s : Poll) : (p.run E s).calls = s.calls := by
  refine run_induction E (fun s t => t.calls = s.calls) (fun _ => rfl) ?_ p s
  intro s r s' t hs ht
  rw [ht]; simp [Poll.request, hs.calls_eq]

theorem run_requests (E : Env) (p : Prog) (s : Poll) :
    ∃ l, (p.run E s).requests = s.requests ++ l := by
  refine run_induction E (fun s t => ∃ l, t.requests = s.requests ++ l) (fun _ => ⟨[], by simp⟩) ?_ p s
  rintro s r s' t hs ⟨l, hl⟩
  exact ⟨r :: l, by rw [hl]; simp [Poll.request, hs.requests_eq]⟩

/-- A state property `P` that every single call satisfying `Q` preserves holds
after a run all of whose calls satisfy `Q`; every call made then satisfies
whatever `R` the steps establish. -/
theorem run_invariant (E : Env) (P : Poll → Prop) (Q R : Request → Prop)
    (hstep : ∀ s r s', Step E s r s' → P s → Q r → P (s'.request r) ∧ R r)
    (p : Prog) (s : Poll) (hP : P s) (l : List Request)
    (hl : (p.run E s).requests = s.requests ++ l) (hQ : ∀ r ∈ l, Q r) :
    P (p.run E s) ∧ ∀ r ∈ l, R r := by
  have key := run_induction E
    (fun s t => (∃ l0, t.requests = s.requests ++ l0) ∧
      (P s → ∀ l, t.requests = s.requests ++ l → (∀ r ∈ l, Q r) → P t ∧ ∀ r ∈ l, R r))
    ?_ ?_ p s
  · exact key.2 hP l hl hQ
  · intro s
    refine ⟨⟨[], by simp⟩, fun hP l hl _ => ?_⟩
    have : l = [] := by simpa using hl
    subst this
    exact ⟨hP, by simp⟩
  · rintro s r s' t hs ⟨⟨l', hl'⟩, ih⟩
    have hreq : (s'.request r).requests = s.requests ++ [r] := by
      simp [Poll.request, hs.requests_eq]
    refine ⟨⟨r :: l', by rw [hl', hreq]; simp⟩, fun hP l hl hQ => ?_⟩
    have hll : l = r :: l' := by
      rw [hl', hreq, List.append_assoc] at hl
      exact (List.append_cancel_left hl).symm
    subst hll
    have h1 := hstep s r s' hs hP (hQ r (by simp))
    have h2 := ih h1.1 l' hl' (fun q hq => hQ q (by simp [hq]))
    refine ⟨h2.1, ?_⟩
    intro q hq
    rcases List.mem_cons.1 hq with rfl | hq
    · exact h1.2
    · exact h2.2 q hq

/-- The allocation pointer never moves back. -/
theorem Step.next_le {E : Env} {s s' : Poll} {r : Request} (h : Step E s r s') :
    s.next ≤ s'.next := by
  cases h <;>
    simp [MyAvahiPoll.WatchNew, MyAvahiPoll.TimeoutNew, AvahiWatch.WatchUpdate,
      AvahiWatch.WatchFree, AvahiTimeout.TimeoutUpdate, AvahiTimeout.TimeoutFree] <;>
    split <;> simp

/-- A live handle lies below the allocation pointer. -/
theorem Poll.WF.watch_lt {s : Poll} (hs : s.WF) {w : Handle} {x : AvahiWatch}
    (hw : s.watches w = some x) : w < s.next := by
  by_contra hge
  rw [(hs w (Nat.le_of_not_lt hge)).1] at hw
  cases hw

/-- A live handle lies below the allocation pointer. -/
theorem Poll.WF.timeout_lt {s : Poll} (hs : s.WF) {t : Handle} {x : AvahiTimeout}
    (ht : s.timeouts t = some x) : t < s.next := by
  by_contra hge
  rw [(hs t (Nat.le_of_not_lt hge)).2] at ht
  cases ht

/-- A call that is neither `watch_update` nor `watch_free` on `w` leaves the
watch `w` as it is. -/
theorem Step.watches_eq {E : Env} {s s' : Poll} {r : Request} (h : Step E s r s')
    (w : Handle) (hw : w < s.next)
    (hu : ∀ ev, r ≠ .watch_update w ev) (hf : r ≠ .watch_free w) :
    s'.watches w = s.watches w := by
  cases h with
  | watch_new fd ev cb ud =>
    simp [MyAvahiPoll.WatchNew, Function.update_noteq (Nat.ne_of_lt hw)]
  | watch_update w' ev =>
    have hne : w ≠ w' := by
      rintro rfl
      exact hu ev rfl
    unfold AvahiWatch.WatchUpdate
    split <;> simp [Function.update_noteq hne]
  | watch_get_events w' v hv => rfl
  | watch_get_events_dangling w' hv => simp
  | watch_free w' =>
    have hne : w ≠ w' := by
      rintro rfl
      exact hf rfl
    unfold AvahiWatch.WatchFree
    split <;> simp [Function.update_noteq hne]
  | timeout_new tv cb ud => simp [MyAvahiPoll.TimeoutNew]
  | timeout_update t tv => unfold AvahiTimeout.TimeoutUpdate; split <;> simp
  | timeout_free t => unfold AvahiTimeout.TimeoutFree; split <;> simp

/-- No call changes the `received` field of a watch, and `watch_get_events`
returns it. -/
theorem Step.received {E : Env} {s s' : Poll} {r : Request} (h : Step E s r s')
    (w : Handle) (hw : w < s.next) (v : Nat)
    (hv : ∀ x, s.watches w = some x → x.received = v) :
    (∀ x, s'.watches w = some x → x.received = v) ∧
      ∀ v', r = .watch_get_events w (some v') → v' = v := by
  by_cases hq : (∀ ev, r ≠ .watch_update w ev) ∧ r ≠ .watch_free w
  · rw [h.watches_eq w hw hq.1 hq.2]
    refine ⟨hv, ?_⟩
    rintro v' rfl
    cases h with
    | watch_get_events _ _ hg =>
      unfold AvahiWatch.WatchGetEvents at hg
      cases hx : s.watches w with
      | none => simp [hx] at hg
      | some x =>
        simp [hx] at hg
        rw [← hg]
        exact hv x hx
  · cases h with
    | watch_update w' ev =>
      refine ⟨?_, by intro v' hv'; cases hv'⟩
      have hww : w' = w := by
        by_contra hne
        exact hq ⟨fun ev' he => (by cases he; exact hne rfl), fun he => (by cases he)⟩
      subst hww
      unfold AvahiWatch.WatchUpdate
      cases hx : s.watches w' with
      | none => simp [hx]
      | some x =>
        intro x' hx'
        simp at hx'
        rw [← hx']
        exact hv x hx
    | watch_free w' =>
      refine ⟨?_, by intro v' hv'; cases hv'⟩
      have hww : w' = w := by
        by_contra hne
        exact hq ⟨fun ev' he => (by cases he), fun he => (by cases he; exact hne rfl)⟩
      subst hww
      unfold AvahiWatch.WatchFree
      cases hx : s.watches w' with
      | none => simp [hx]
      | some x => simp [hx]
    | _ => exact absurd ⟨fun ev he => (by cases he), fun he => (by cases he)⟩ hq

/-- A call that is not `timeout_update` with a deadline on `t` leaves an idle
or deleted timeout `t` idle or deleted. -/
theorem Step.timeout_idle {E : Env} {s s' : Poll} {r : Request} (h : Step E s r s')
    (t : Handle) (ht : t < s.next)
    (hu : ∀ tv, r ≠ .timeout_update t (some tv))
    (hi : ∀ x, s.timeouts t = some x → x.timer.due = none) :
    ∀ x, s'.timeouts t = some x → x.timer.due = none := by
  cases h with
  | watch_new fd ev cb ud => simpa [MyAvahiPoll.WatchNew] using hi
  | watch_update w ev => unfold AvahiWatch.WatchUpdate; split <;> simpa using hi
  | watch_get_events w v hv => exact hi
  | watch_get_events_dangling w hv => simpa using hi
  | watch_free w => unfold AvahiWatch.WatchFree; split <;> simpa using hi
  | timeout_new tv cb ud =>
    simpa [MyAvahiPoll.TimeoutNew, Function.update_noteq (Nat.ne_of_lt ht)] using hi
  | timeout_update t' tv =>
    unfold AvahiTimeout.TimeoutUpdate
    cases hx : s.timeouts t' with
    | none => simpa using hi
    | some x =>
      by_cases hne : t = t'
      · subst hne
        cases tv with
        | some v => exact absurd rfl (hu v)
        | none =>
          intro x' hx'
          simp at hx'
          rw [← hx']
          rfl
      · simpa [Function.update_noteq hne] using hi
  | timeout_free t' =>
    unfold AvahiTimeout.TimeoutFree
    cases hx : s.timeouts t' with
    | none => simpa using hi
    | some x =>
      by_cases hne : t = t'
      · subst hne; simp
      · simpa [Function.update_noteq hne] using hi

/-- Running a sequence is running its parts in order. -/
theorem run_bind (E : Env) (p q : Prog) (s : Poll) :
    (p.bind q).run E s = q.run E (p.run E s) := by
  induction p generalizing s with
  | ret => rfl
  | watch_new fd ev cb ud k _ ih => simp [Prog.bind, Prog.run, ih]
  | watch_update w ev k ih => simp [Prog.bind, Prog.run, ih]
  | watch_get_events w k ih =>
    simp only [Prog.bind, Prog.run]
    split <;> simp [ih]
  | watch_free w k ih => simp [Prog.bind, Prog.run, ih]
  | timeout_new tv cb ud k _ ih => simp [Prog.bind, Prog.run, ih]
  | timeout_update t tv k ih => simp [Prog.bind, Prog.run, ih]
  | timeout_free t k ih => simp [Prog.bind, Prog.run, ih]

/-- The allocation pointer never moves back during a run. -/
theorem run_next_le (E : Env) (p : Prog) (s : Poll) : s.next ≤ (p.run E s).next := by
  refine run_induction E (fun s t => s.next ≤ t.next) (fun _ => le_refl _) ?_ p s
  intro s r s' t hs ht
  exact le_trans hs.next_le ht

/-! ## Lemmas: the watch -/

theorem setReceived_calls (s : Poll) (w : Handle) (v : Nat) :
    (AvahiWatch.setReceived s w v).calls = s.calls := by
  unfold AvahiWatch.setReceived; split <;> simp

theorem setReceived_requests (s : Poll) (w : Handle) (v : Nat) :
    (AvahiWatch.setReceived s w v).requests = s.requests := by
  unfold AvahiWatch.setReceived; split <;> simp

theorem setReceived_next (s : Poll) (w : Handle) (v : Nat) :
    (AvahiWatch.setReceived s w v).next = s.next := by
  unfold AvahiWatch.setReceived; split <;> simp

theorem setReceived_watches (s : Poll) (w : Handle) (x : AvahiWatch) (v : Nat)
    (hw : s.watches w = some x) :
    (AvahiWatch.setReceived s w v).watches w = some { x with received := v } := by
  simp [AvahiWatch.setReceived, hw]

/-- One delivery adds exactly one callback invocation to `calls`, with the
descriptor and userdata of the watch and the translated flags. -/
theorem OnSocketReady_calls (E : Env) (s : Poll) (w : Handle) (x : AvahiWatch) (f : Nat)
    (hw : s.watches w = some x) :
    (AvahiWatch.OnSocketReady E s w f).calls =
      s.calls ++ [Call.watch w x.event.fd (ToAvahiWatchEvent E f) x.userdata] := by
  simp only [AvahiWatch.OnSocketReady, setReceived_calls]
  simp [AvahiWatch.invokeCallback, AvahiWatch.setReceived, hw, run_calls, Poll.call,
    SocketEvent.GetSocket]

/-- The method `WatchUpdate` replaces the scheduled mask of a live watch and
nothing else, and invokes nothing. -/
theorem WatchUpdate_fields (E : Env) (s : Poll) (w : Handle) (x : AvahiWatch) (m : Nat)
    (hw : s.watches w = some x) :
    (AvahiWatch.WatchUpdate E s w m).watches w =
        some { x with event := { x.event with scheduled_flags := FromAvahiWatchEvent E m } } ∧
      (AvahiWatch.WatchUpdate E s w m).calls = s.calls := by
  simp [AvahiWatch.WatchUpdate, hw, SocketEvent.Schedule]

/-- Any number of `WatchUpdate` calls keeps descriptor, callback, userdata and
`received` of a live watch. -/
theorem foldl_WatchUpdate_fields (E : Env) (w : Handle) (ms : List Nat) (s : Poll)
    (x : AvahiWatch) (hw : s.watches w = some x) :
    ∃ x', (ms.foldl (fun st m => AvahiWatch.WatchUpdate E st w m) s).watches w = some x' ∧
      x'.event.fd = x.event.fd ∧ x'.callback = x.callback ∧ x'.userdata = x.userdata ∧
      x'.received = x.received ∧
      (ms.foldl (fun st m => AvahiWatch.WatchUpdate E st w m) s).calls = s.calls := by
  induction ms generalizing s x with
  | nil => exact ⟨x, hw, rfl, rfl, rfl, rfl, rfl⟩
  | cons m ms ih =>
    obtain ⟨h1, h2⟩ := WatchUpdate_fields E s w x m hw
    obtain ⟨x', hx', hfd, hcb, hud, hrc, hcalls⟩ := ih _ _ h1
    exact ⟨x', hx', hfd, hcb, hud, hrc, by rw [List.foldl_cons, hcalls, h2]⟩

/-- The sample machine is well formed: its three objects sit below address 3. -/
theorem Poll.sample_WF : Poll.sample.WF := by
  intro h hh
  have h3 : 3 ≤ h := hh
  have h0 : h ≠ 0 := by intro h'; rw [h'] at h3; exact absurd h3 (by decide)
  have h1 : h ≠ 1 := by intro h'; rw [h'] at h3; exact absurd h3 (by decide)
  have h2 : h ≠ 2 := by intro h'; rw [h'] at h3; exact absurd h3 (by decide)
  simp [Poll.sample, MyAvahiPoll.WatchNew, MyAvahiPoll.TimeoutNew, Poll.empty,
    Function.update_noteq h0, Function.update_noteq h1, Function.update_noteq h2]

/-! ## Lemmas: the delivered mask at every point -/

/-- Every entry point keeps the heap below the allocation pointer. -/
theorem Step.WF {E : Env} {s s' : Poll} {r : Request} (h : Step E s r s') (hs : s.WF) :
    s'.WF := by
  cases h with
  | watch_new fd ev cb ud =>
    intro h hh
    simp only [MyAvahiPoll.WatchNew] at hh ⊢
    have hlt : s.next < h := Nat.lt_of_succ_le hh
    have hne : h ≠ s.next := Nat.ne_of_gt hlt
    simp [Function.update_noteq hne, hs h (Nat.le_of_lt hlt)]
  | watch_update w ev =>
    unfold AvahiWatch.WatchUpdate
    cases hw : s.watches w with
    | none => exact fun h hh => by simpa using hs h (by simpa using hh)
    | some x =>
      intro h hh
      simp only at hh ⊢
      have hne : h ≠ w := Nat.ne_of_gt (lt_of_lt_of_le (hs.watch_lt hw) hh)
      simp [Function.update_noteq hne, hs h hh]
  | watch_get_events w v hv => exact hs
  | watch_get_events_dangling w hv =>
    exact fun h hh => by simpa using hs h (by simpa using hh)
  | watch_free w =>
    unfold AvahiWatch.WatchFree
    cases hw : s.watches w with
    | none => exact fun h hh => by simpa using hs h (by simpa using hh)
    | some x =>
      intro h hh
      simp only at hh ⊢
      have hne : h ≠ w := Nat.ne_of_gt (lt_of_lt_of_le (hs.watch_lt hw) hh)
      simp [Function.update_noteq hne, hs h hh]
  | timeout_new tv cb ud =>
    intro h hh
    simp only [MyAvahiPoll.TimeoutNew] at hh ⊢
    have hlt : s.next < h := Nat.lt_of_succ_le hh
    have hne : h ≠ s.next := Nat.ne_of_gt hlt
    simp [Function.update_noteq hne, hs h (Nat.le_of_lt hlt)]
  | timeout_update t tv =>
    unfold AvahiTimeout.TimeoutUpdate
    cases ht : s.timeouts t with
    | none => exact fun h hh => by simpa using hs h (by simpa using hh)
    | some x =>
      intro h hh
      simp only at hh ⊢
      have hne : h ≠ t := Nat.ne_of_gt (lt_of_lt_of_le (hs.timeout_lt ht) hh)
      simp [Function.update_noteq hne, hs h hh]
  | timeout_free t =>
    unfold AvahiTimeout.TimeoutFree
    cases ht : s.timeouts t with
    | none => exact fun h hh => by simpa using hs h (by simpa using hh)
    | some x =>
      intro h hh
      simp only at hh ⊢
      have hne : h ≠ t := Nat.ne_of_gt (lt_of_lt_of_le (hs.timeout_lt ht) hh)
      simp [Function.update_noteq hne, hs h hh]

/-- Running foreign code keeps the heap below the allocation pointer. -/
theorem run_WF (E : Env) (p : Prog) (s : Poll) (hs : s.WF) : (p.run E s).WF := by
  refine run_induction E (fun s t => s.WF → t.WF) (fun _ h => h) ?_ p s hs
  intro s r s' t hstep ih hs
  exact ih (hstep.WF hs)

/-- An assignment to `received` keeps the heap below the allocation pointer. -/
theorem setReceived_WF (s : Poll) (w : Handle) (v : Nat) (hs : s.WF) :
    (AvahiWatch.setReceived s w v).WF := by
  unfold AvahiWatch.setReceived
  cases hw : s.watches w with
  | none => exact fun h hh => by simpa using hs h (by simpa using hh)
  | some x =>
    intro h hh
    simp only at hh ⊢
    have hne : h ≠ w := Nat.ne_of_gt (lt_of_lt_of_le (hs.watch_lt hw) hh)
    simp [Function.update_noteq hne, hs h hh]

/-- A delivery keeps the heap below the allocation pointer. -/
theorem OnSocketReady_WF (E : Env) (s : Poll) (w : Handle) (f : Nat) (hs : s.WF) :
    (AvahiWatch.OnSocketReady E s w f).WF := by
  unfold AvahiWatch.OnSocketReady
  refine setReceived_WF _ _ _ ?_
  have h1 := setReceived_WF s w (ToAvahiWatchEvent E f) hs
  generalize AvahiWatch.setReceived s w (ToAvahiWatchEvent E f) = s1 at h1
  unfold AvahiWatch.invokeCallback
  cases hw : s1.watches w with
  | none => exact fun h hh => by simpa using h1 h (by simpa using hh)
  | some x => exact run_WF E _ _ h1

/-- A timer expiry keeps the heap below the allocation pointer. -/
theorem Expire_WF (E : Env) (s : Poll) (t : Handle) (hs : s.WF) :
    (CoarseTimerEvent.Expire E s t).WF := by
  unfold CoarseTimerEvent.Expire
  cases ht : s.timeouts t with
  | none => exact hs
  | some x =>
    cases hd : x.timer.due with
    | none => simpa [hd] using hs
    | some d =>
      simp only [hd, AvahiTimeout.OnTimeout, Function.update_same]
      refine run_WF E _ _ ?_
      intro h hh
      have hne : h ≠ t := Nat.ne_of_gt (lt_of_lt_of_le (hs.timeout_lt ht) hh)
      simp [Poll.call, Function.update_noteq hne, hs h hh]

/-- No call changes the `received` field of any watch, a new watch starts with
an empty one, and `watch_get_events` returns the field: if every live watch
`h` holds `g h`, where `g` is empty on unallocated addresses, this is still so
after the call, and a `watch_get_events` call on `h` returned `g h`. -/
theorem Step.received_all {E : Env} {s s' : Poll} {r : Request} (h : Step E s r s')
    (g : Handle → Nat) (hg : ∀ a, s.next ≤ a → g a = 0)
    (hv : ∀ a y, s.watches a = some y → y.received = g a) :
    (∀ a y, s'.watches a = some y → y.received = g a) ∧
      ∀ a v, r = .watch_get_events a (some v) → v = g a := by
  cases h with
  | watch_new fd ev cb ud =>
    refine ⟨?_, fun a v he => by cases he⟩
    intro a y hy
    simp only [MyAvahiPoll.WatchNew] at hy
    by_cases hne : a = s.next
    · subst hne
      simp at hy
      rw [← hy, hg _ (le_refl _)]
      rfl
    · rw [Function.update_noteq hne] at hy
      exact hv a y hy
  | watch_update w ev =>
    refine ⟨?_, fun a v he => by cases he⟩
    unfold AvahiWatch.WatchUpdate
    cases hw : s.watches w with
    | none => simpa using hv
    | some x =>
      intro a y hy
      simp only at hy
      by_cases hne : a = w
      · subst hne
        simp at hy
        rw [← hy]
        exact hv a x hw
      · rw [Function.update_noteq hne] at hy
        exact hv a y hy
  | watch_get_events w v hget =>
    refine ⟨hv, ?_⟩
    intro a v' he
    cases he
    unfold AvahiWatch.WatchGetEvents at hget
    cases hx : s.watches w with
    | none => simp [hx] at hget
    | some x =>
      simp [hx] at hget
      rw [← hget]
      exact hv w x hx
  | watch_get_events_dangling w hget =>
    exact ⟨by simpa using hv, fun a v he => by cases he⟩
  | watch_free w =>
    refine ⟨?_, fun a v he => by cases he⟩
    unfold AvahiWatch.WatchFree
    cases hw : s.watches w with
    | none => simpa using hv
    | some x =>
      intro a y hy
      simp only at hy
      by_cases hne : a = w
      · subst hne
        simp at hy
      · rw [Function.update_noteq hne] at hy
        exact hv a y hy
  | timeout_new tv cb ud =>
    exact ⟨by simpa [MyAvahiPoll.TimeoutNew] using hv, fun a v he => by cases he⟩
  | timeout_update t tv =>
    refine ⟨?_, fun a v he => by cases he⟩
    unfold AvahiTimeout.TimeoutUpdate
    split <;> simpa using hv
  | timeout_free t =>
    refine ⟨?_, fun a v he => by cases he⟩
    unfold AvahiTimeout.TimeoutFree
    split <;> simpa using hv

/-- The run form of `Step.received_all`: the `received` fields are as `g` says
after the run, and every `watch_get_events` call made during the run returned
what `g` says. -/
theorem run_received_all (E : Env) (p : Prog) (s : Poll) (g : Handle → Nat)
    (hg : ∀ a, s.next ≤ a → g a = 0)
    (hv : ∀ a y, s.watches a = some y → y.received = g a)
    (l : List Request) (hl : (p.run E s).requests = s.requests ++ l) :
    (∀ a y, (p.run E s).watches a = some y → y.received = g a) ∧
      ∀ a v, Request.watch_get_events a (some v) ∈ l → v = g a := by
  have inv := run_invariant E
    (fun st => (∀ a, st.next ≤ a → g a = 0) ∧ ∀ a y, st.watches a = some y → y.received = g a)
    (fun _ => True)
    (fun r => ∀ a v, r = .watch_get_events a (some v) → v = g a)
    ?_ p s ⟨hg, hv⟩ l hl (fun _ _ => trivial)
  · exact ⟨inv.1.2, fun a v hm => inv.2 _ hm a v rfl⟩
  · intro st r st' hstep hP _
    have h1 := hstep.received_all g hP.1 hP.2
    exact ⟨⟨fun a ha => hP.1 a (le_trans hstep.next_le ha), h1.1⟩, h1.2⟩

/-- Foreign code that runs while no callback is running reads only empty masks
and leaves every mask empty. -/
theorem run_Quiet (E : Env) (p : Prog) (s : Poll) (hq : s.Quiet) :
    (p.run E s).Quiet ∧
      ∀ l a v, (p.run E s).requests = s.requests ++ l →
        Request.watch_get_events a (some v) ∈ l → v = 0 := by
  obtain ⟨l0, hl0⟩ := run_requests E p s
  have h := run_received_all E p s (fun _ => 0) (fun _ _ => rfl) hq
  refine ⟨(h l0 hl0).1, fun l a v hl hm => (h l hl).2 a v hm⟩

/-- A timer expiry, callback included, reads only empty masks and leaves every
mask empty. -/
theorem Expire_Quiet (E : Env) (s : Poll) (t : Handle) (hq : s.Quiet) :
    (CoarseTimerEvent.Expire E s t).Quiet ∧
      ∀ l a v, (CoarseTimerEvent.Expire E s t).requests = s.requests ++ l →
        Request.watch_get_events a (some v) ∈ l → v = 0 := by
  unfold CoarseTimerEvent.Expire
  cases ht : s.timeouts t with
  | none =>
    refine ⟨hq, ?_⟩
    intro l a v hl hm
    have : l = [] := by simpa using hl
    subst this
    cases hm
  | some x =>
    cases hd : x.timer.due with
    | none =>
      simp only [hd]
      refine ⟨hq, ?_⟩
      intro l a v hl hm
      have : l = [] := by simpa using hl
      subst this
      cases hm
    | some d =>
      simp only [hd, AvahiTimeout.OnTimeout, Function.update_same]
      exact run_Quiet E _ _ (fun a y hy => hq a y (by simpa [Poll.call] using hy))

/-- A delivery to the live watch `w`, with every other mask empty before it:
inside the callback a read of `w` gives the translated flags and a read of any
other watch gives the empty mask, and when `OnSocketReady` has returned every
mask is empty. -/
theorem OnSocketReady_Quiet (E : Env) (s : Poll) (w : Handle) (x : AvahiWatch) (f : Nat)
    (hs : s.WF) (hw : s.watches w = some x)
    (hq : ∀ a y, a ≠ w → s.watches a = some y → y.received = 0) :
    (AvahiWatch.OnSocketReady E s w f).Quiet ∧
      ∀ l a v, (AvahiWatch.OnSocketReady E s w f).requests = s.requests ++ l →
        Request.watch_get_events a (some v) ∈ l →
        v = if a = w then ToAvahiWatchEvent E f else 0 := by
  have hlt : w < s.next := hs.watch_lt hw
  have hw1 := setReceived_watches s w x (ToAvahiWatchEvent E f) hw
  have hothers : ∀ a, a ≠ w →
      (AvahiWatch.setReceived s w (ToAvahiWatchEvent E f)).watches a = s.watches a := by
    intro a ha
    simp [AvahiWatch.setReceived, hw, Function.update_noteq ha]
  have hrun := run_received_all E
    (x.callback w x.event.fd (ToAvahiWatchEvent E f) x.userdata)
    ((AvahiWatch.setReceived s w (ToAvahiWatchEvent E f)).call
      (.watch w x.event.fd (ToAvahiWatchEvent E f) x.userdata))
    (fun a => if a = w then ToAvahiWatchEvent E f else 0)
    (by
      intro a ha
      have hne : a ≠ w := Nat.ne_of_gt (lt_of_lt_of_le hlt (by simpa [Poll.call, setReceived_next] using ha))
      simp [hne])
    (by
      intro a y hy
      simp only [Poll.call] at hy
      by_cases ha : a = w
      · subst ha
        rw [hw1] at hy
        cases hy
        simp
      · rw [hothers a ha] at hy
        simp [ha, hq a y ha hy])
  have hdef : AvahiWatch.OnSocketReady E s w f =
      AvahiWatch.setReceived
        ((x.callback w x.event.fd (ToAvahiWatchEvent E f) x.userdata).run E
          ((AvahiWatch.setReceived s w (ToAvahiWatchEvent E f)).call
            (.watch w x.event.fd (ToAvahiWatchEvent E f) x.userdata))) w 0 := by
    simp [AvahiWatch.OnSocketReady, AvahiWatch.invokeCallback, hw1, SocketEvent.GetSocket]
  rw [hdef]
  generalize hs2 : (x.callback w x.event.fd (ToAvahiWatchEvent E f) x.userdata).run E
          ((AvahiWatch.setReceived s w (ToAvahiWatchEvent E f)).call
            (.watch w x.event.fd (ToAvahiWatchEvent E f) x.userdata)) = s2 at hrun ⊢
  constructor
  · obtain ⟨l0, hl0⟩ : ∃ l0, s2.requests =
        ((AvahiWatch.setReceived s w (ToAvahiWatchEvent E f)).call
            (.watch w x.event.fd (ToAvahiWatchEvent E f) x.userdata)).requests ++ l0 := by
      rw [← hs2]; exact run_requests E _ _
    have hall := (hrun l0 hl0).1
    intro a y hy
    unfold AvahiWatch.setReceived at hy
    cases h2 : s2.watches w with
    | none =>
      simp only [h2, raise_watches] at hy
      have hne : a ≠ w := by
        rintro rfl
        rw [h2] at hy
        cases hy
      simpa [hne] using hall a y hy
    | some z =>
      simp only [h2] at hy
      by_cases ha : a = w
      · subst ha
        simp at hy
        rw [← hy]
      · rw [Function.update_noteq ha] at hy
        simpa [ha] using hall a y hy
  · intro l a v hl hm
    rw [setReceived_requests] at hl
    have hl' : s2.requests =
        ((AvahiWatch.setReceived s w (ToAvahiWatchEvent E f)).call
            (.watch w x.event.fd (ToAvahiWatchEvent E f) x.userdata)).requests ++ l := by
      rw [hl]; simp [Poll.call, setReceived_requests]
    exact (hrun l hl').2 a v hm

/-- Every host event keeps the machine well formed and, once it has returned,
every mask empty. -/
theorem handle_WF_Quiet (E : Env) (s : Poll) (ev : HostEvent) (hs : s.WF) (hq : s.Quiet) :
    (s.handle E ev).WF ∧ (s.handle E ev).Quiet := by
  cases ev with
  | foreign p => exact ⟨run_WF E p s hs, (run_Quiet E p s hq).1⟩
  | socket_ready w f =>
    simp only [Poll.handle]
    cases hw : s.watches w with
    | none => exact ⟨hs, hq⟩
    | some x =>
      exact ⟨OnSocketReady_WF E s w f hs,
        (OnSocketReady_Quiet E s w x f hs hw (fun a y _ hy => hq a y hy)).1⟩
  | timer_expired t => exact ⟨Expire_WF E s t hs, (Expire_Quiet E s t hq).1⟩

/-- Every state the machine reaches between host events is well formed and has
every mask empty. -/
theorem reach_WF_Quiet (E : Env) (evs : List HostEvent) :
    (Poll.reach E evs).WF ∧ (Poll.reach E evs).Quiet := by
  have key : ∀ (evs : List HostEvent) (s : Poll), s.WF → s.Quiet →
      (evs.foldl (Poll.handle E) s).WF ∧ (evs.foldl (Poll.handle E) s).Quiet := by
    intro evs
    induction evs with
    | nil => exact fun s hs hq => ⟨hs, hq⟩
    | cons ev evs ih =>
      intro s hs hq
      have h := handle_WF_Quiet E s ev hs hq
      exact ih _ h.1 h.2
  exact key evs Poll.empty (fun _ _ => ⟨rfl, rfl⟩) (fun a y hy => by cases hy)

/-- The sample machine has every mask empty. -/
theorem Poll.sample_Quiet : Poll.sample.Quiet := by
  intro a y hy
  by_cases h1 : a = 1
  · subst h1
    have : Poll.sample.watches 1 = some (AvahiWatch.ctor Env.linux 6 1 wantWrite 8) := rfl
    rw [this] at hy
    cases hy
    rfl
  · by_cases h0 : a = 0
    · subst h0
      have : Poll.sample.watches 0 = some (AvahiWatch.ctor Env.linux 5 1 freeSelf 7) := rfl
      rw [this] at hy
      cases hy
      rfl
    · simp [Poll.sample, MyAvahiPoll.WatchNew, MyAvahiPoll.TimeoutNew, Poll.empty,
        Function.update_noteq h0, Function.update_noteq h1] at hy

/-! ## The claims -/

/-- Claim C1 (round trip): for every host mask `e` built only from the bits
`SocketEvent::READ` and `SocketEvent::WRITE` (all four combinations),
`FromAvahiWatchEvent (ToAvahiWatchEvent e) = e`. -/
theorem FromAvahiWatchEvent_ToAvahiWatchEvent (E : Env) (hE : E.WellFormed) (e : Nat)
    (he : e = 0 ∨ e = E.READ ∨ e = E.WRITE ∨ e = E.READ ||| E.WRITE) :
    FromAvahiWatchEvent E (ToAvahiWatchEvent E e) = e := by
  obtain ⟨hR, hW, hRW, hRE, hRH, hWE, hWH, hI, hO, hEr, hHu, hio, hie, hih, hoe, hoh, heh⟩ := hE
  have hWR := land_comm_zero hRW
  have hoi := land_comm_zero hio
  rcases he with rfl | rfl | rfl | rfl <;>
    simp [FromAvahiWatchEvent, ToAvahiWatchEvent, lor_land, *]

/-- Claim C1 at a concrete input: the mask `READ | WRITE = 5` under the Linux
constants. -/
theorem FromAvahiWatchEvent_ToAvahiWatchEvent_witness :
    Env.linux.WellFormed ∧
    ((5 : Nat) = 0 ∨ 5 = Env.linux.READ ∨ 5 = Env.linux.WRITE ∨
      5 = Env.linux.READ ||| Env.linux.WRITE) ∧
    FromAvahiWatchEvent Env.linux (ToAvahiWatchEvent Env.linux 5) = 5 :=
  ⟨by decide, by decide,
    FromAvahiWatchEvent_ToAvahiWatchEvent Env.linux (by decide) 5 (by decide)⟩

/-- Claim C2, evaluated on the code: watch 0 of the sample machine has the
callback `freeSelf`, which calls `WatchFree` on its own watch. For every host
flag value `f`: the machine starts without fault and with watch 0 live; when
the callback has returned there is still no fault and watch 0 is deleted; and
when `OnSocketReady(f)` has returned, the dangling handle 0 has been
dereferenced (by the assignment `received = AvahiWatchEvent(0)` of line 76).
So the delivery logic does write a field of the freed watch after the callback
returns. -/
theorem OnSocketReady_writes_freed_watch (f : Nat) :
    Poll.sample.fault = none ∧
    (Poll.sample.watches 0).isSome = true ∧
    (AvahiWatch.invokeCallback Env.linux
      (AvahiWatch.setReceived Poll.sample 0 (ToAvahiWatchEvent Env.linux f)) 0).fault = none ∧
    ((AvahiWatch.invokeCallback Env.linux
      (AvahiWatch.setReceived Poll.sample 0 (ToAvahiWatchEvent Env.linux f)) 0).watches 0).isNone
      = true ∧
    (AvahiWatch.OnSocketReady Env.linux Poll.sample 0 f).fault = some 0 :=
  ⟨rfl, rfl, rfl, rfl, rfl⟩

/-- Claim C3: for a live watch `w` of a well-formed machine and every host flag
value `f`, (1) every `WatchGetEvents` call on `w` that foreign code makes
during the delivery `OnSocketReady(f)` on `w`, and that finds `w` live,
returns exactly `ToAvahiWatchEvent f`; (2) `WatchGetEvents` returns the empty
mask right after the constructor and after any list `ms` of `WatchUpdate`
calls that follow it; (3) `WatchUpdate` never changes what `WatchGetEvents`
returns; (4) `WatchGetEvents` returns the empty mask after `OnSocketReady` has
returned with the watch not freed, also after any list `ms` of `WatchUpdate`
calls that follow. And at every other point: (5) when the other watches are
idle before the delivery, a `WatchGetEvents` call made inside the callback of
`w` on any other live watch returns the empty mask (and on `w` the translated
flags), and when `OnSocketReady` has returned every live watch reads empty;
(6) foreign code running outside any callback on a machine with every mask
empty reads only empty masks and leaves every mask empty; (7) so does a timer
expiry with its callback; (8) every state that the machine reaches from the
empty machine through host events (foreign code outside callbacks, deliveries
to registered watches, timer expiries) is well formed and has every mask
empty, so the hypotheses of (5)-(7) hold there; (9) a machine has every mask
empty exactly when `WatchGetEvents` returns the empty mask for every live
watch. -/
theorem WatchGetEvents_delivered_mask (E : Env) (s : Poll) (w : Handle) (x : AvahiWatch)
    (f : Nat) (hs : s.WF) (hw : s.watches w = some x) :
    (∀ (l : List Request) (v : Nat),
      (AvahiWatch.OnSocketReady E s w f).requests = s.requests ++ l →
      Request.watch_get_events w (some v) ∈ l → v = ToAvahiWatchEvent E f) ∧
    (∀ (fd : Int) (e : Nat) (cb : AvahiWatchCallback) (u : Userdata) (ms : List Nat),
      AvahiWatch.WatchGetEvents
        (ms.foldl (fun st m => AvahiWatch.WatchUpdate E st (MyAvahiPoll.WatchNew E s fd e cb u).1 m)
          (MyAvahiPoll.WatchNew E s fd e cb u).2)
        (MyAvahiPoll.WatchNew E s fd e cb u).1 = some 0) ∧
    (∀ e : Nat,
      AvahiWatch.WatchGetEvents (AvahiWatch.WatchUpdate E s w e) w =
        AvahiWatch.WatchGetEvents s w) ∧
    (∀ (x' : AvahiWatch) (ms : List Nat),
      (AvahiWatch.OnSocketReady E s w f).watches w = some x' →
      AvahiWatch.WatchGetEvents
        (ms.foldl (fun st m => AvahiWatch.WatchUpdate E st w m)
          (AvahiWatch.OnSocketReady E s w f)) w = some 0) ∧
    ((∀ (a : Handle) (y : AvahiWatch), a ≠ w → s.watches a = some y → y.received = 0) →
      (AvahiWatch.OnSocketReady E s w f).Quiet ∧
      ∀ (l : List Request) (a : Handle) (v : Nat),
        (AvahiWatch.OnSocketReady E s w f).requests = s.requests ++ l →
        Request.watch_get_events a (some v) ∈ l →
        v = if a = w then ToAvahiWatchEvent E f else 0) ∧
    (s.Quiet → ∀ p : Prog,
      (p.run E s).Quiet ∧
      ∀ (l : List Request) (a : Handle) (v : Nat),
        (p.run E s).requests = s.requests ++ l →
        Request.watch_get_events a (some v) ∈ l → v = 0) ∧
    (s.Quiet → ∀ t : Handle,
      (CoarseTimerEvent.Expire E s t).Quiet ∧
      ∀ (l : List Request) (a : Handle) (v : Nat),
        (CoarseTimerEvent.Expire E s t).requests = s.requests ++ l →
        Request.watch_get_events a (some v) ∈ l → v = 0) ∧
    (∀ evs : List HostEvent, (Poll.reach E evs).WF ∧ (Poll.reach E evs).Quiet) ∧
    (∀ s' : Poll, s'.Quiet ↔
      ∀ (a : Handle) (y : AvahiWatch), s'.watches a = some y →
        AvahiWatch.WatchGetEvents s' a = some 0) := by
  refine ⟨?_, ?_, ?_, ?_, ?_, ?_, ?_, ?_, ?_⟩
  · intro l v hl hv
    have hlt : w < s.next := hs.watch_lt hw
    simp only [AvahiWatch.OnSocketReady, setReceived_requests] at hl
    have hw1 := setReceived_watches s w x (ToAvahiWatchEvent E f) hw
    simp only [AvahiWatch.invokeCallback, hw1] at hl
    rw [← setReceived_requests s w (ToAvahiWatchEvent E f)] at hl
    have inv := run_invariant E
      (fun st => w < st.next ∧ ∀ y, st.watches w = some y → y.received = ToAvahiWatchEvent E f)
      (fun _ => True)
      (fun r => ∀ v', r = .watch_get_events w (some v') → v' = ToAvahiWatchEvent E f)
      ?_ _ _ ?_ l hl (fun _ _ => trivial)
    · exact inv.2 _ hv v rfl
    · intro st r st' hstep hP _
      have h1 := hstep.received w hP.1 _ hP.2
      exact ⟨⟨lt_of_lt_of_le hP.1 hstep.next_le, h1.1⟩, h1.2⟩
    · refine ⟨by simpa [Poll.call, setReceived_next] using hlt, ?_⟩
      intro y hy
      simp [Poll.call, hw1] at hy
      rw [← hy]
  · intro fd e cb u ms
    have hnew : (MyAvahiPoll.WatchNew E s fd e cb u).2.watches
        (MyAvahiPoll.WatchNew E s fd e cb u).1 = some (AvahiWatch.ctor E fd e cb u) := by
      simp [MyAvahiPoll.WatchNew]
    obtain ⟨x', hx', _, _, _, hrc, _⟩ := foldl_WatchUpdate_fields E _ ms _ _ hnew
    simp only [AvahiWatch.WatchGetEvents, hx', hrc]
    rfl
  · intro e
    simp [AvahiWatch.WatchGetEvents, AvahiWatch.WatchUpdate, hw]
  · intro x' ms hx'
    have h0 : x'.received = 0 := by
      unfold AvahiWatch.OnSocketReady at hx'
      simp only at hx'
      generalize AvahiWatch.invokeCallback E _ w = s2 at hx'
      cases h2 : s2.watches w with
      | none => simp [AvahiWatch.setReceived, h2] at hx'
      | some y =>
        rw [setReceived_watches s2 w y 0 h2] at hx'
        cases hx'
        rfl
    obtain ⟨x'', hx'', _, _, _, hrc, _⟩ := foldl_WatchUpdate_fields E w ms _ x' hx'
    simp only [AvahiWatch.WatchGetEvents, hx'', hrc, h0]
  · intro hq
    exact OnSocketReady_Quiet E s w x f hs hw hq
  · intro hq p
    exact run_Quiet E p s hq
  · intro hq t
    exact Expire_Quiet E s t hq
  · intro evs
    exact reach_WF_Quiet E evs
  · intro s'
    constructor
    · intro hq a y hy
      simp [AvahiWatch.WatchGetEvents, hy, hq a y hy]
    · intro h a y hy
      have := h a y hy
      simpa [AvahiWatch.WatchGetEvents, hy] using this

/-- Claim C3 at a concrete input: watch 1 of the sample machine, whose callback
`wantWrite` calls `WatchGetEvents`, with host flags `READ | ERROR = 9`: the
call returns 9, and when `OnSocketReady` has returned every mask is empty. -/
theorem WatchGetEvents_delivered_mask_witness :
    Poll.sample.WF ∧
    Poll.sample.watches 1 = some (AvahiWatch.ctor Env.linux 6 1 wantWrite 8) ∧
    (AvahiWatch.OnSocketReady Env.linux Poll.sample 1 9).requests =
      Poll.sample.requests ++ [.watch_update 1 4, .watch_get_events 1 (some 9)] ∧
    Request.watch_get_events 1 (some 9) ∈
      [Request.watch_update 1 4, Request.watch_get_events 1 (some 9)] ∧
    9 = ToAvahiWatchEvent Env.linux 9 ∧
    (AvahiWatch.OnSocketReady Env.linux Poll.sample 1 9).Quiet :=
  ⟨Poll.sample_WF, rfl, by decide, by decide,
    (WatchGetEvents_delivered_mask Env.linux Poll.sample 1 _ 9 Poll.sample_WF rfl).1
      [.watch_update 1 4, .watch_get_events 1 (some 9)] 9 (by decide) (by decide),
    ((WatchGetEvents_delivered_mask Env.linux Poll.sample 1 _ 9 Poll.sample_WF rfl).2.2.2.2.1
      (fun a y _ hy => Poll.sample_Quiet a y hy)).1⟩

/-- Claim C4: for every foreign mask `e` (any bit pattern), the `READ` part of
`FromAvahiWatchEvent e` is `READ` when `e` contains `AVAHI_WATCH_IN` and empty
otherwise, its `WRITE` part is `WRITE` when `e` contains `AVAHI_WATCH_OUT` and
empty otherwise, and it has no bit outside `READ | WRITE`, in particular
neither `ERROR` nor `HANGUP`; read-only interest gives exactly `READ` and
write-only interest exactly `WRITE`; and the mask registered on the host by
the constructor and by `WatchUpdate` is `FromAvahiWatchEvent e`. -/
theorem FromAvahiWatchEvent_bits (E : Env) (hE : E.WellFormed) (e : Nat) :
    (FromAvahiWatchEvent E e &&& E.READ =
      if e &&& E.AVAHI_WATCH_IN ≠ 0 then E.READ else 0) ∧
    (FromAvahiWatchEvent E e &&& E.WRITE =
      if e &&& E.AVAHI_WATCH_OUT ≠ 0 then E.WRITE else 0) ∧
    FromAvahiWatchEvent E e &&& (E.READ ||| E.WRITE) = FromAvahiWatchEvent E e ∧
    FromAvahiWatchEvent E e &&& E.ERROR = 0 ∧
    FromAvahiWatchEvent E e &&& E.HANGUP = 0 ∧
    (e &&& E.AVAHI_WATCH_IN ≠ 0 → e &&& E.AVAHI_WATCH_OUT = 0 →
      FromAvahiWatchEvent E e = E.READ) ∧
    (e &&& E.AVAHI_WATCH_OUT ≠ 0 → e &&& E.AVAHI_WATCH_IN = 0 →
      FromAvahiWatchEvent E e = E.WRITE) ∧
    (∀ (s : Poll) (fd : Int) (cb : AvahiWatchCallback) (u : Userdata),
      ((MyAvahiPoll.WatchNew E s fd e cb u).2.watches
          (MyAvahiPoll.WatchNew E s fd e cb u).1).map (fun x => x.event.scheduled_flags) =
        some (FromAvahiWatchEvent E e)) ∧
    (∀ (s : Poll) (w : Handle) (x : AvahiWatch), s.watches w = some x →
      ((AvahiWatch.WatchUpdate E s w e).watches w).map (fun x => x.event.scheduled_flags) =
        some (FromAvahiWatchEvent E e)) := by
  obtain ⟨hR, hW, hRW, hRE, hRH, hWE, hWH, hI, hO, hEr, hHu, hio, hie, hih, hoe, hoh, heh⟩ := hE
  have hWR := land_comm_zero hRW
  refine ⟨?_, ?_, ?_, ?_, ?_, ?_, ?_, ?_, ?_⟩
  · unfold FromAvahiWatchEvent; split_ifs <;> simp [lor_land, *]
  · unfold FromAvahiWatchEvent; split_ifs <;> simp [lor_land, *]
  · unfold FromAvahiWatchEvent; split_ifs <;> simp [lor_land, Nat.and_or_distrib_left, *]
  · unfold FromAvahiWatchEvent; split_ifs <;> simp [lor_land, *]
  · unfold FromAvahiWatchEvent; split_ifs <;> simp [lor_land, *]
  · intro h1 h2; simp [FromAvahiWatchEvent, h1, h2]
  · intro h1 h2; simp [FromAvahiWatchEvent, h1, h2]
  · intro s fd cb u
    simp [MyAvahiPoll.WatchNew, AvahiWatch.ctor, SocketEvent.Schedule]
  · intro s w x hw
    simp [AvahiWatch.WatchUpdate, hw, SocketEvent.Schedule]

/-- Claim C4 at a concrete input: the foreign mask `IN | ERR = 9` under the
Linux constants requests no `ERROR`, and updating watch 1 of the sample machine
with it registers `FromAvahiWatchEvent 9`. -/
theorem FromAvahiWatchEvent_bits_witness :
    Env.linux.WellFormed ∧
    FromAvahiWatchEvent Env.linux 9 &&& Env.linux.ERROR = 0 ∧
    Poll.sample.watches 1 = some (AvahiWatch.ctor Env.linux 6 1 wantWrite 8) ∧
    ((AvahiWatch.WatchUpdate Env.linux Poll.sample 1 9).watches 1).map
      (fun x => x.event.scheduled_flags) = some (FromAvahiWatchEvent Env.linux 9) :=
  ⟨by decide, (FromAvahiWatchEvent_bits Env.linux (by decide) 9).2.2.2.1, rfl,
    (FromAvahiWatchEvent_bits Env.linux (by decide) 9).2.2.2.2.2.2.2.2 Poll.sample 1 _ rfl⟩

/-- Claim C6: given a deadline argument `tv`, the timeout built by the
constructor, and any live timeout after `TimeoutUpdate`, is armed with
`ToSteadyClockDuration tv` when `tv` is present and is idle when `tv` is
absent, whatever the state of the timer was before. -/
theorem Timeout_armed_iff_deadline (E : Env) (tv : Option Timeval) :
    (∀ (s : Poll) (cb : AvahiTimeoutCallback) (u : Userdata),
      ((MyAvahiPoll.TimeoutNew E s tv cb u).2.timeouts
          (MyAvahiPoll.TimeoutNew E s tv cb u).1).map (fun x => x.timer.due) =
        some (tv.map E.ToSteadyClockDuration)) ∧
    (∀ (s : Poll) (t : Handle) (x : AvahiTimeout), s.timeouts t = some x →
      ((AvahiTimeout.TimeoutUpdate E s t tv).timeouts t).map (fun x => x.timer.due) =
        some (tv.map E.ToSteadyClockDuration)) := by
  constructor
  · intro s cb u
    cases tv <;>
      simp [MyAvahiPoll.TimeoutNew, AvahiTimeout.ctor, CoarseTimerEvent.Schedule]
  · intro s t x ht
    cases tv <;>
      simp [AvahiTimeout.TimeoutUpdate, ht, CoarseTimerEvent.Schedule, CoarseTimerEvent.Cancel]

/-- Claim C6 at a concrete input: timeout 2 of the sample machine is armed, and
an update with no deadline leaves it idle. -/
theorem Timeout_armed_iff_deadline_witness :
    Poll.sample.timeouts 2 = some (AvahiTimeout.ctor Env.linux
      (some { tv_sec := 0, tv_usec := 500000 }) idleCallback 9) ∧
    ((AvahiTimeout.TimeoutUpdate Env.linux Poll.sample 2 none).timeouts 2).map
      (fun x => x.timer.due) = some (Option.map Env.linux.ToSteadyClockDuration none) :=
  ⟨rfl, (Timeout_armed_iff_deadline Env.linux none).2 Poll.sample 2 _ rfl⟩

/-- Claim C7: when the host timer of a live, armed timeout `t` expires, (1) the
foreign callback runs, with the handle `t` and its userdata, from a state in
which `t` is already idle; (2) exactly one callback invocation is added, with
the arguments `(t, userdata)`; (3) if the callback makes no `TimeoutUpdate`
call with a deadline on `t`, then `t` is idle after the firing if it is still
live, and a further expiry of the host timer changes nothing, so there is no
second firing. -/
theorem Expire_one_shot (E : Env) (s : Poll) (t : Handle) (x : AvahiTimeout) (d : Duration)
    (hs : s.WF) (ht : s.timeouts t = some x) (hd : x.timer.due = some d) :
    CoarseTimerEvent.Expire E s t =
      (x.callback t x.userdata).run E
        (Poll.call
          { s with timeouts := Function.update s.timeouts t (some { x with timer := { due := none } }) }
          (Call.timeout t x.userdata)) ∧
    (CoarseTimerEvent.Expire E s t).calls = s.calls ++ [Call.timeout t x.userdata] ∧
    (∀ l : List Request, (CoarseTimerEvent.Expire E s t).requests = s.requests ++ l →
      (∀ tv, Request.timeout_update t (some tv) ∉ l) →
      (∀ y, (CoarseTimerEvent.Expire E s t).timeouts t = some y → y.timer.due = none) ∧
      CoarseTimerEvent.Expire E (CoarseTimerEvent.Expire E s t) t =
        CoarseTimerEvent.Expire E s t) := by
  have hrun : CoarseTimerEvent.Expire E s t =
      (x.callback t x.userdata).run E
        (Poll.call
          { s with timeouts := Function.update s.timeouts t (some { x with timer := { due := none } }) }
          (Call.timeout t x.userdata)) := by
    simp [CoarseTimerEvent.Expire, ht, hd, AvahiTimeout.OnTimeout, CoarseTimerEvent.Cancel]
  refine ⟨hrun, ?_, ?_⟩
  · rw [hrun, run_calls]; rfl
  · intro l hl hno
    rw [hrun] at hl ⊢
    have inv := run_invariant E
      (fun st => t < st.next ∧ ∀ y, st.timeouts t = some y → y.timer.due = none)
      (fun r => ∀ tv, r ≠ .timeout_update t (some tv))
      (fun _ => True) ?_ _ _ ?_ l hl ?_
    · have hidle := inv.1.2
      refine ⟨hidle, ?_⟩
      generalize (x.callback t x.userdata).run E _ = s' at hidle ⊢
      unfold CoarseTimerEvent.Expire
      cases h' : s'.timeouts t with
      | none => rfl
      | some y => simp [hidle y h']
    · intro st r st' hstep hP hQ
      exact ⟨⟨lt_of_lt_of_le hP.1 hstep.next_le, hstep.timeout_idle t hP.1 hQ hP.2⟩, trivial⟩
    · refine ⟨hs.timeout_lt ht, ?_⟩
      intro y hy
      simp [Poll.call] at hy
      rw [← hy]
    · intro r hr tv hrt
      rw [hrt] at hr
      exact hno tv hr

/-- Claim C7 at a concrete input: timeout 2 of the sample machine, armed with
0.5 s, fires once with `(2, 9)`; its callback makes no call, and a second
expiry changes nothing. -/
theorem Expire_one_shot_witness :
    Poll.sample.WF ∧
    Poll.sample.timeouts 2 = some (AvahiTimeout.ctor Env.linux
      (some { tv_sec := 0, tv_usec := 500000 }) idleCallback 9) ∧
    (AvahiTimeout.ctor Env.linux
      (some { tv_sec := 0, tv_usec := 500000 }) idleCallback 9).timer.due = some 500000 ∧
    (CoarseTimerEvent.Expire Env.linux Poll.sample 2).calls =
      Poll.sample.calls ++ [Call.timeout 2 9] ∧
    (CoarseTimerEvent.Expire Env.linux Poll.sample 2).requests = Poll.sample.requests ++ [] ∧
    CoarseTimerEvent.Expire Env.linux (CoarseTimerEvent.Expire Env.linux Poll.sample 2) 2 =
      CoarseTimerEvent.Expire Env.linux Poll.sample 2 :=
  ⟨Poll.sample_WF, rfl, rfl,
    (Expire_one_shot Env.linux Poll.sample 2 _ 500000 Poll.sample_WF rfl rfl).2.1,
    rfl,
    ((Expire_one_shot Env.linux Poll.sample 2 _ 500000 Poll.sample_WF rfl rfl).2.2 [] rfl
      (by simp)).2⟩

/-- Claim C8: `WatchUpdate(w, m)` leaves the whole machine state unchanged when
the mask registered for the live watch `w` is already the translation of `m`,
in particular right after the constructor was given `m`; and `WatchUpdate(w, m)`
applied twice gives the same state as applied once. -/
theorem WatchUpdate_same_mask (E : Env) (s : Poll) (m : Nat) :
    (∀ (w : Handle) (x : AvahiWatch), s.watches w = some x →
      x.event.scheduled_flags = FromAvahiWatchEvent E m →
      AvahiWatch.WatchUpdate E s w m = s) ∧
    (∀ (fd : Int) (cb : AvahiWatchCallback) (u : Userdata),
      AvahiWatch.WatchUpdate E (MyAvahiPoll.WatchNew E s fd m cb u).2
          (MyAvahiPoll.WatchNew E s fd m cb u).1 m =
        (MyAvahiPoll.WatchNew E s fd m cb u).2) ∧
    (∀ w : Handle,
      AvahiWatch.WatchUpdate E (AvahiWatch.WatchUpdate E s w m) w m =
        AvahiWatch.WatchUpdate E s w m) := by
  have key : ∀ (s : Poll) (w : Handle) (x : AvahiWatch), s.watches w = some x →
      x.event.scheduled_flags = FromAvahiWatchEvent E m →
      AvahiWatch.WatchUpdate E s w m = s := by
    intro s w x hw hm
    unfold AvahiWatch.WatchUpdate
    simp only [hw, SocketEvent.Schedule, ← hm]
    have : Function.update s.watches w (some x) = s.watches := by
      rw [← hw]; exact Function.update_eq_self w s.watches
    rw [this]
  refine ⟨key s, ?_, ?_⟩
  · intro fd cb u
    exact key _ _ (AvahiWatch.ctor E fd m cb u) (by simp [MyAvahiPoll.WatchNew]) rfl
  · intro w
    cases hw : s.watches w with
    | none =>
      have h1 : AvahiWatch.WatchUpdate E s w m = s.raise w := by
        simp [AvahiWatch.WatchUpdate, hw]
      rw [h1]
      simp only [AvahiWatch.WatchUpdate, raise_watches, hw]
      unfold Poll.raise
      cases hf : s.fault <;> simp [hf]
    | some x =>
      exact key _ w { x with event := x.event.Schedule (FromAvahiWatchEvent E m) }
        (by simp [AvahiWatch.WatchUpdate, hw]) rfl

/-- Claim C8 at a concrete input: watch 1 of the sample machine was created
with read interest, and updating it with read interest changes nothing. -/
theorem WatchUpdate_same_mask_witness :
    Poll.sample.watches 1 = some (AvahiWatch.ctor Env.linux 6 1 wantWrite 8) ∧
    (AvahiWatch.ctor Env.linux 6 1 wantWrite 8).event.scheduled_flags =
      FromAvahiWatchEvent Env.linux 1 ∧
    AvahiWatch.WatchUpdate Env.linux Poll.sample 1 1 = Poll.sample :=
  ⟨rfl, rfl, (WatchUpdate_same_mask Env.linux Poll.sample 1).1 1 _ rfl rfl⟩

/-- Claim C9: for the watch that `WatchNew` creates with descriptor `fd`,
callback `cb` and userdata `u`, after any list `ms` of `WatchUpdate` calls on
it, one call `OnSocketReady(f)` adds exactly one callback invocation, with the
arguments `(watch, fd, ToAvahiWatchEvent f, u)`; and what runs between the two
assignments to `received`, inside `OnSocketReady`, is `cb` applied to these
arguments. -/
theorem OnSocketReady_invokes_callback (E : Env) (s : Poll) (fd : Int) (e : Nat)
    (cb : AvahiWatchCallback) (u : Userdata) (ms : List Nat) (f : Nat) :
    (AvahiWatch.OnSocketReady E
        (ms.foldl (fun st m => AvahiWatch.WatchUpdate E st (MyAvahiPoll.WatchNew E s fd e cb u).1 m)
          (MyAvahiPoll.WatchNew E s fd e cb u).2)
        (MyAvahiPoll.WatchNew E s fd e cb u).1 f).calls =
      s.calls ++
        [Call.watch (MyAvahiPoll.WatchNew E s fd e cb u).1 fd (ToAvahiWatchEvent E f) u] ∧
    AvahiWatch.OnSocketReady E
        (ms.foldl (fun st m => AvahiWatch.WatchUpdate E st (MyAvahiPoll.WatchNew E s fd e cb u).1 m)
          (MyAvahiPoll.WatchNew E s fd e cb u).2)
        (MyAvahiPoll.WatchNew E s fd e cb u).1 f =
      AvahiWatch.setReceived
        ((cb (MyAvahiPoll.WatchNew E s fd e cb u).1 fd (ToAvahiWatchEvent E f) u).run E
          ((AvahiWatch.setReceived
              (ms.foldl
                (fun st m => AvahiWatch.WatchUpdate E st (MyAvahiPoll.WatchNew E s fd e cb u).1 m)
                (MyAvahiPoll.WatchNew E s fd e cb u).2)
              (MyAvahiPoll.WatchNew E s fd e cb u).1 (ToAvahiWatchEvent E f)).call
            (Call.watch (MyAvahiPoll.WatchNew E s fd e cb u).1 fd (ToAvahiWatchEvent E f) u)))
        (MyAvahiPoll.WatchNew E s fd e cb u).1 0 := by
  have hnew : (MyAvahiPoll.WatchNew E s fd e cb u).2.watches (MyAvahiPoll.WatchNew E s fd e cb u).1 =
      some (AvahiWatch.ctor E fd e cb u) := by
    simp [MyAvahiPoll.WatchNew]
  have hcalls : (MyAvahiPoll.WatchNew E s fd e cb u).2.calls = s.calls := rfl
  generalize (MyAvahiPoll.WatchNew E s fd e cb u).1 = w at *
  generalize (MyAvahiPoll.WatchNew E s fd e cb u).2 = s1 at *
  obtain ⟨x', hx', hfd, hcb, hud, _, hc⟩ := foldl_WatchUpdate_fields E w ms s1 _ hnew
  generalize ms.foldl (fun st m => AvahiWatch.WatchUpdate E st w m) s1 = st at *
  have hfd' : x'.event.fd = fd := hfd
  have hcb' : x'.callback = cb := hcb
  have hud' : x'.userdata = u := hud
  constructor
  · rw [OnSocketReady_calls E st w x' f hx', hc, hcalls, hfd', hud']
  · simp [AvahiWatch.OnSocketReady, AvahiWatch.invokeCallback, AvahiWatch.setReceived, hx',
      SocketEvent.GetSocket, hfd', hcb', hud']

/-- Claim C10 as stated fails: on watch 1 of the sample machine, registered for
`READ = 1`, the callback `wantWrite` first calls `WatchUpdate` with
`AVAHI_WATCH_OUT = 4`. The remainder of the callback (its `WatchGetEvents`
call) runs from the state that `WatchUpdate` left, and in that state the host
registration mask of the watch is already `WRITE = 4`, not the mask `1` from
before the update. -/
theorem WatchUpdate_not_deferred :
    AvahiWatch.invokeCallback Env.linux
        (AvahiWatch.setReceived Poll.sample 1 (ToAvahiWatchEvent Env.linux 1)) 1 =
      Prog.run Env.linux (.watch_get_events 1 (fun _ => .ret))
        ((AvahiWatch.WatchUpdate Env.linux
          ((AvahiWatch.setReceived Poll.sample 1 (ToAvahiWatchEvent Env.linux 1)).call
            (Call.watch 1 6 1 8)) 1 4).request (.watch_update 1 4)) ∧
    (((AvahiWatch.setReceived Poll.sample 1 (ToAvahiWatchEvent Env.linux 1)).call
      (Call.watch 1 6 1 8)).watches 1).map (fun x => x.event.scheduled_flags) = some 1 ∧
    ((AvahiWatch.WatchUpdate Env.linux
      ((AvahiWatch.setReceived Poll.sample 1 (ToAvahiWatchEvent Env.linux 1)).call
        (Call.watch 1 6 1 8)) 1 4).watches 1).map (fun x => x.event.scheduled_flags) = some 4 :=
  ⟨rfl, by decide, by decide⟩

/-- Claim C10 as amended: a `WatchUpdate(w, m)` that the callback of the live
watch `w` issues during the delivery `OnSocketReady(f)`, after any calls `pre`
that leave `w` live, is applied at once. With `s1` the state at the moment of
the call and `s2` the state the call leaves, (1) the host registration mask of
`w` in `s2` is `FromAvahiWatchEvent m`; (2) the remainder `k` of the callback
runs from `s2`, and `OnSocketReady` returns the state it leaves after the final
assignment to `received`; (3) if the remainder makes no further `WatchUpdate`
and no `WatchFree` on `w`, the registration mask of `w` is
`FromAvahiWatchEvent m` once `OnSocketReady` has returned. -/
theorem WatchUpdate_in_callback (E : Env) (s : Poll) (w : Handle) (x : AvahiWatch) (f m : Nat)
    (pre k : Prog) (s1 s2 : Poll) (x1 : AvahiWatch)
    (hs : s.WF) (hw : s.watches w = some x)
    (hcb : x.callback w x.event.fd (ToAvahiWatchEvent E f) x.userdata =
      pre.bind (.watch_update w m k))
    (hs1 : s1 = pre.run E ((AvahiWatch.setReceived s w (ToAvahiWatchEvent E f)).call
      (Call.watch w x.event.fd (ToAvahiWatchEvent E f) x.userdata)))
    (hlive : s1.watches w = some x1)
    (hs2 : s2 = (AvahiWatch.WatchUpdate E s1 w m).request (.watch_update w m)) :
    (s2.watches w).map (fun y => y.event.scheduled_flags) = some (FromAvahiWatchEvent E m) ∧
    AvahiWatch.OnSocketReady E s w f = AvahiWatch.setReceived (k.run E s2) w 0 ∧
    (∀ l : List Request, (k.run E s2).requests = s2.requests ++ l →
      (∀ e, Request.watch_update w e ∉ l) → Request.watch_free w ∉ l →
      ((AvahiWatch.OnSocketReady E s w f).watches w).map (fun y => y.event.scheduled_flags) =
        some (FromAvahiWatchEvent E m)) := by
  have hw1 := setReceived_watches s w x (ToAvahiWatchEvent E f) hw
  have hrun : AvahiWatch.OnSocketReady E s w f = AvahiWatch.setReceived (k.run E s2) w 0 := by
    simp only [AvahiWatch.OnSocketReady, AvahiWatch.invokeCallback, hw1, SocketEvent.GetSocket,
      hcb, run_bind, ← hs1]
    simp only [Prog.run, ← hs2]
  have hsched : (s2.watches w).map (fun y => y.event.scheduled_flags) =
      some (FromAvahiWatchEvent E m) := by
    simp [hs2, Poll.request, AvahiWatch.WatchUpdate, hlive, SocketEvent.Schedule]
  refine ⟨hsched, hrun, ?_⟩
  intro l hl hnu hnf
  have hlt : w < s2.next := by
    have h0 : w < s.next := hs.watch_lt hw
    have h1 : s.next ≤ s1.next := by
      rw [hs1]
      refine le_trans ?_ (run_next_le E pre _)
      simp [Poll.call, setReceived_next]
    have h2 : s2.next = s1.next := by
      simp [hs2, Poll.request, AvahiWatch.WatchUpdate, hlive]
    rw [h2]
    exact lt_of_lt_of_le h0 h1
  have inv := run_invariant E
    (fun st => w < st.next ∧ st.watches w = s2.watches w)
    (fun r => (∀ e, r ≠ .watch_update w e) ∧ r ≠ .watch_free w)
    (fun _ => True) ?_ k s2 ⟨hlt, rfl⟩ l hl ?_
  · rw [hrun]
    have hk := inv.1.2
    cases h2 : s2.watches w with
    | none => rw [h2] at hsched; cases hsched
    | some y =>
      rw [h2] at hk hsched
      rw [setReceived_watches _ w y 0 hk]
      simpa using hsched
  · intro st r st' hstep hP hQ
    refine ⟨⟨lt_of_lt_of_le hP.1 hstep.next_le, ?_⟩, trivial⟩
    have := hstep.watches_eq w hP.1 hQ.1 hQ.2
    simp only [Poll.request]
    rw [this, hP.2]
  · intro r hr
    refine ⟨fun e he => ?_, fun he => ?_⟩
    · rw [he] at hr; exact hnu e hr
    · rw [he] at hr; exact hnf hr

/-- Claim C10 as amended, at a concrete input: watch 1 of the sample machine
with host flags `READ = 1`; its callback `wantWrite` updates to
`AVAHI_WATCH_OUT = 4` and then only reads the events, and the registration
mask is `FromAvahiWatchEvent 4` once `OnSocketReady` has returned. -/
theorem WatchUpdate_in_callback_witness :
    Poll.sample.WF ∧
    Poll.sample.watches 1 = some (AvahiWatch.ctor Env.linux 6 1 wantWrite 8) ∧
    wantWrite 1 6 (ToAvahiWatchEvent Env.linux 1) 8 =
      Prog.ret.bind (.watch_update 1 4 (.watch_get_events 1 (fun _ => .ret))) ∧
    ((AvahiWatch.OnSocketReady Env.linux Poll.sample 1 1).watches 1).map
      (fun y => y.event.scheduled_flags) = some (FromAvahiWatchEvent Env.linux 4) :=
  ⟨Poll.sample_WF, rfl, rfl,
    (WatchUpdate_in_callback Env.linux Poll.sample 1 _ 1 4 .ret
      (.watch_get_events 1 (fun _ => .ret)) _ _ _ Poll.sample_WF rfl rfl rfl rfl rfl).2.2
      [.watch_get_events 1 (some 1)] (by decide) (by simp) (by simp)⟩

end AvahiPoll
